import Mathlib

/-!
Verification of the gistapi service (`gistapi/gistapi.py`): a Flask app
exposing `POST /api/v1/search`, which lists a GitHub user's gists, fetches
each gist's content and reports the URLs of gists whose content matches a
regular expression.  The network (the two outbound GitHub API calls) is
modelled as explicit oracles; Python exceptions are modelled with `Except`.
-/

namespace Gistapi

/-- The kinds of Python exception the code can raise: `requests` / JSON
decoding failures, `KeyError` on a missing dict key, indexing the empty
`files` mapping, `TypeError` from indexing a string with a string key
(iterating a dict yields its keys), and `re.compile` errors. -/
inductive Err
  | network
  | keyError
  | indexError
  | typeError
  | regexError
  deriving DecidableEq, Repr

/-! ## Regular expressions

`regex_match` delegates to Python's `re` module: `re.compile(pattern)`
followed by `p.match(content)`, which succeeds iff the compiled expression
matches a (possibly empty) prefix of `content` starting at position 0.
We embed the `re` engine's match-at-start semantics on the core regex
operations via Brzozowski derivatives. -/

/-- Abstract syntax of a (compiled) regular expression. -/
inductive Regex
  | emptyset
  | eps
  | ch (c : Char)
  | alt (r s : Regex)
  | cat (r s : Regex)
  | star (r : Regex)
  deriving DecidableEq, Repr

/-- The language of a regular expression, as an inductive predicate on
character lists. -/
inductive Matches : Regex → List Char → Prop
  | eps : Matches .eps []
  | ch (c : Char) : Matches (.ch c) [c]
  | altL {r s w} : Matches r w → Matches (.alt r s) w
  | altR {r s w} : Matches s w → Matches (.alt r s) w
  | cat {r s w₁ w₂} : Matches r w₁ → Matches s w₂ → Matches (.cat r s) (w₁ ++ w₂)
  | starNil {r} : Matches (.star r) []
  | starCons {r w₁ w₂} : Matches r w₁ → Matches (.star r) w₂ →
      Matches (.star r) (w₁ ++ w₂)

/-- Does the expression accept the empty word? -/
def Regex.nullable : Regex → Bool
  | .emptyset => false
  | .eps => true
  | .ch _ => false
  | .alt r s => r.nullable || s.nullable
  | .cat r s => r.nullable && s.nullable
  | .star _ => true

/-- Brzozowski derivative of a regular expression by a character. -/
def Regex.deriv : Regex → Char → Regex
  | .emptyset, _ => .emptyset
  | .eps, _ => .emptyset
  | .ch c, a => if a = c then .eps else .emptyset
  | .alt r s, a => .alt (r.deriv a) (s.deriv a)
  | .cat r s, a =>
      if r.nullable then .alt (.cat (r.deriv a) s) (s.deriv a)
      else .cat (r.deriv a) s
  | .star r, a => .cat (r.deriv a) (.star r)

theorem cat_inv {r s : Regex} {w : List Char} (h : Matches (.cat r s) w) :
    ∃ w₁ w₂, w = w₁ ++ w₂ ∧ Matches r w₁ ∧ Matches s w₂ := by
  cases h with
  | cat h₁ h₂ => exact ⟨_, _, rfl, h₁, h₂⟩

theorem nullable_iff (r : Regex) : r.nullable = true ↔ Matches r [] := by
  induction r with
  | emptyset =>
      simp only [Regex.nullable]
      constructor
      · intro h; cases h
      · intro h; cases h
  | eps =>
      simp only [Regex.nullable]
      exact ⟨fun _ => Matches.eps, fun _ => trivial⟩
  | ch c =>
      simp only [Regex.nullable]
      constructor
      · intro h; cases h
      · intro h; cases h
  | alt r s ihr ihs =>
      simp only [Regex.nullable, Bool.or_eq_true, ihr, ihs]
      constructor
      · rintro (h | h)
        · exact Matches.altL h
        · exact Matches.altR h
      · intro h
        cases h with
        | altL h => exact Or.inl h
        | altR h => exact Or.inr h
  | cat r s ihr ihs =>
      simp only [Regex.nullable, Bool.and_eq_true, ihr, ihs]
      constructor
      · rintro ⟨hr, hs⟩
        exact Matches.cat hr hs
      · intro h
        obtain ⟨w₁, w₂, hw, hr, hs⟩ := cat_inv h
        obtain ⟨h₁, h₂⟩ := List.append_eq_nil.mp hw.symm
        subst h₁; subst h₂
        exact ⟨hr, hs⟩
  | star r ih =>
      simp only [Regex.nullable]
      exact ⟨fun _ => Matches.starNil, fun _ => trivial⟩

theorem deriv_sound {r : Regex} {a : Char} {w : List Char}
    (h : Matches (r.deriv a) w) : Matches r (a :: w) := by
  induction r generalizing w with
  | emptyset => cases h
  | eps => cases h
  | ch c =>
      by_cases hc : a = c
      · subst hc
        simp only [Regex.deriv, if_pos rfl] at h
        cases h
        exact Matches.ch a
      · simp only [Regex.deriv, if_neg hc] at h
        cases h
  | alt r s ihr ihs =>
      simp only [Regex.deriv] at h
      cases h with
      | altL h => exact Matches.altL (ihr h)
      | altR h => exact Matches.altR (ihs h)
  | cat r s ihr ihs =>
      simp only [Regex.deriv] at h
      by_cases hn : r.nullable
      · rw [if_pos hn] at h
        cases h with
        | altL h =>
            cases h with
            | cat h₁ h₂ =>
                rename_i w₁ w₂
                have := Matches.cat (ihr h₁) h₂
                simpa using this
        | altR h =>
            have hr0 : Matches r [] := (nullable_iff r).1 hn
            have := Matches.cat hr0 (ihs h)
            simpa using this
      · rw [if_neg hn] at h
        cases h with
        | cat h₁ h₂ =>
            rename_i w₁ w₂
            have := Matches.cat (ihr h₁) h₂
            simpa using this
  | star r ih =>
      simp only [Regex.deriv] at h
      cases h with
      | cat h₁ h₂ =>
          rename_i w₁ w₂
          have := Matches.starCons (ih h₁) h₂
          simpa using this

theorem deriv_complete {r : Regex} {a : Char} {w : List Char}
    (h : Matches r (a :: w)) : Matches (r.deriv a) w := by
  generalize hw : (a :: w) = u at h
  induction h generalizing a w with
  | eps => cases hw
  | ch c =>
      cases hw
      simp only [Regex.deriv, if_pos rfl]
      exact Matches.eps
  | altL h ih =>
      subst hw
      exact Matches.altL (ih rfl)
  | altR h ih =>
      subst hw
      exact Matches.altR (ih rfl)
  | cat h₁ h₂ ih₁ ih₂ =>
      rename_i r s w₁ w₂
      simp only [Regex.deriv]
      cases w₁ with
      | nil =>
          simp only [List.nil_append] at hw
          have hn : r.nullable = true := (nullable_iff r).2 h₁
          rw [if_pos hn]
          exact Matches.altR (ih₂ hw)
      | cons b t =>
          simp only [List.cons_append, List.cons.injEq] at hw
          obtain ⟨hb, ht⟩ := hw
          subst hb
          have hcat : Matches (Regex.cat (r.deriv a) s) w := by
            rw [ht]
            exact Matches.cat (ih₁ rfl) h₂
          by_cases hn : r.nullable
          · rw [if_pos hn]
            exact Matches.altL hcat
          · rw [if_neg hn]
            exact hcat
  | starNil => cases hw
  | starCons h₁ h₂ ih₁ ih₂ =>
      rename_i r w₁ w₂
      simp only [Regex.deriv]
      cases w₁ with
      | nil =>
          simp only [List.nil_append] at hw
          exact ih₂ hw
      | cons b t =>
          simp only [List.cons_append, List.cons.injEq] at hw
          obtain ⟨hb, ht⟩ := hw
          subst hb
          rw [ht]
          exact Matches.cat (ih₁ rfl) h₂

/-- Does `r` match some (possibly empty) prefix of `w`?  This is the
semantics of Python's `p.match(content)` truthiness. -/
def pmatch (r : Regex) : List Char → Bool
  | [] => r.nullable
  | c :: w => r.nullable || pmatch (r.deriv c) w

theorem pmatch_iff (r : Regex) (w : List Char) :
    pmatch r w = true ↔ ∃ p q, w = p ++ q ∧ Matches r p := by
  induction w generalizing r with
  | nil =>
      simp only [pmatch, nullable_iff]
      constructor
      · intro h
        exact ⟨[], [], rfl, h⟩
      · rintro ⟨p, q, hw, hp⟩
        obtain ⟨hp0, _⟩ := List.append_eq_nil.mp hw.symm
        subst hp0
        exact hp
  | cons c w ih =>
      simp only [pmatch, Bool.or_eq_true, nullable_iff, ih]
      constructor
      · rintro (h | ⟨p, q, hw, hp⟩)
        · exact ⟨[], c :: w, rfl, h⟩
        · exact ⟨c :: p, q, by simp [hw], deriv_sound hp⟩
      · rintro ⟨p, q, hw, hp⟩
        cases p with
        | nil =>
            simp only [List.nil_append] at hw
            exact Or.inl hp
        | cons b t =>
            simp only [List.cons_append, List.cons.injEq] at hw
            obtain ⟨hb, ht⟩ := hw
            subst hb
            exact Or.inr ⟨t, q, ht, deriv_complete hp⟩

/-! ## `regex_match` -/

/-- A caller-supplied pattern string, abstracted to its compilation
outcome: either it denotes a regular expression or `re.compile` raises. -/
inductive Pat
  | valid (r : Regex)
  | invalid
  deriving DecidableEq, Repr

/-- `re.compile(pattern)`: yields the compiled expression, or raises
`re.error` on a syntactically invalid pattern. -/
def re_compile : Pat → Except Err Regex
  | .valid r => .ok r
  | .invalid => .error .regexError

/-- `regex_match(content, pattern)`: compiles `pattern` and returns whether
`p.match(content)` is truthy, i.e. whether the expression matches at
position 0 of `content` (a prefix match, not a substring search). -/
def regex_match (content : String) (pattern : Pat) : Except Err Bool := do
  let p ← re_compile pattern
  pure (pmatch p content.data)

/-- A regular expression matching exactly the literal string `s`. -/
def litR (s : String) : Regex :=
  s.data.foldr (fun c r => .cat (.ch c) r) .eps

/-! ## Gist-source client

The two outbound GitHub API calls are modelled as oracles.  A gist-content
response carries its `files` mapping as an association list in the external
API's field order; each file object may or may not have a `content` key. -/

/-- One value of a gist's `files` mapping. -/
structure GistFile where
  content : Option String
  deriving DecidableEq, Repr

/-- The parsed JSON response of `GET /gists/{id}`: its `files` mapping, as
`(filename, file)` pairs in the API's field order. -/
structure GistResp where
  files : List (String × GistFile)
  deriving DecidableEq, Repr

/-- `retrieve_content(gist_id)`: `requests.get` the gist (the oracle `net`
may raise), take `response.json()['files']`, pick its first key
(`get_data.keys()[0]` raises on an empty mapping), and return that file's
`'content'` value (`KeyError` if absent). -/
def retrieve_content (net : String → Except Err GistResp) (gist_id : String) :
    Except Err String := do
  let response ← net gist_id
  let get_data := response.files
  match get_data with
  | [] => .error .indexError
  | gist_file :: _ =>
      match gist_file.2.content with
      | none => .error .keyError
      | some content => pure content

/-- An item of the list returned by `gists_for_user`: a gist-summary dict,
of which only the `'id'` key is read (absent keys raise `KeyError`). -/
structure GistItem where
  id : Option String
  deriving DecidableEq, Repr

/-- The parsed JSON body returned by `GET /users/{username}/gists`: either
the documented array of gist summaries, or — e.g. for an upstream error
message — a JSON object, which Python iterates by its keys. -/
inductive Listing
  | arr (items : List GistItem)
  | obj (fields : List (String × String))
  deriving DecidableEq, Repr

/-- One value produced by `for gist in gists`: an element of an array, or a
key (a string) when iterating a dict. -/
inductive IterVal
  | item (g : GistItem)
  | key (s : String)
  deriving DecidableEq, Repr

/-- Python iteration over the parsed JSON body. -/
def Listing.iter : Listing → List IterVal
  | .arr items => items.map .item
  | .obj fields => fields.map fun kv => .key kv.1

/-- The two outbound GitHub API calls, as oracles. -/
structure Net where
  userGists : String → Except Err Listing
  gistResp : String → Except Err GistResp

/-! ## Search orchestration -/

/-- `'https://gist.github.com/{username}/{id}'.format(...)`. -/
def return_url (username id : String) : String :=
  "https://gist.github.com/" ++ username ++ "/" ++ id

/-- Batch status: `'success'` or `'fail'`. -/
inductive Status
  | success
  | fail
  deriving DecidableEq, Repr

/-- The JSON object built by `search`: keys `status`, `username`,
`pattern`, `matches`, in that order, and no others.  (`matches` is a
reserved word in Lean, so the field carries the name of the source
variable `matched` whose value it serialises.) -/
structure SearchResult where
  status : Status
  username : String
  pattern : Pat
  matched : List String
  deriving DecidableEq, Repr

/-- The body of the `try` block for one loop iteration: read `gist['id']`
(`TypeError` when `gist` is a string key, `KeyError` when the dict lacks
`'id'`), fetch the content, evaluate the regex; yield the gist's URL on a
match, nothing on a non-match, or the exception raised. -/
def process_gist (net : String → Except Err GistResp) (username : String)
    (pattern : Pat) (gist : IterVal) : Except Err (Option String) :=
  match gist with
  | .key _ => .error .typeError
  | .item g => do
      let gist_id ← match g.id with
        | none => Except.error Err.keyError
        | some i => Except.ok i
      let content ← retrieve_content net gist_id
      let b ← regex_match content pattern
      if b then pure (some (return_url username gist_id)) else pure none

/-- The `for gist in gists` loop: threads `status` and `matched` through
the iteration; `except Exception: status = 'fail'` and the loop continues. -/
def searchLoop (net : String → Except Err GistResp) (username : String)
    (pattern : Pat) : List IterVal → Status → List String → Status × List String
  | [], status, matched => (status, matched)
  | gist :: rest, status, matched =>
      match process_gist net username pattern gist with
      | .ok (some url) => searchLoop net username pattern rest status (matched ++ [url])
      | .ok none => searchLoop net username pattern rest status matched
      | .error _ => searchLoop net username pattern rest .fail matched

/-- The JSON POST body of `/api/v1/search`, restricted to the two keys the
code reads; `post_data['username']` / `post_data['pattern']` raise
`KeyError` when absent. -/
structure PostData where
  username : Option String
  pattern : Option Pat
  deriving DecidableEq, Repr

/-- Dict subscription: the value, or `KeyError`. -/
def getKey {α : Type} : Option α → Except Err α
  | none => .error .keyError
  | some a => .ok a

/-- The `search` view function: read `username` and `pattern` from the
body, call `gists_for_user` (errors propagate uncaught), run the loop, and
assemble the result object.  An `Except.error` models an exception
escaping the view function (Flask's unhandled-error path). -/
def search (net : Net) (post_data : PostData) : Except Err SearchResult := do
  let username ← getKey post_data.username
  let pattern ← getKey post_data.pattern
  let gists ← net.userGists username
  let (status, matched) := searchLoop net.gistResp username pattern gists.iter .success []
  pure { status := status, username := username, pattern := pattern, matched := matched }

/-! ## Loop characterisation -/

/-- The contribution of one iteration to `matched`. -/
def stepUrl (net : String → Except Err GistResp) (username : String)
    (pattern : Pat) (gist : IterVal) : Option String :=
  match process_gist net username pattern gist with
  | .ok o => o
  | .error _ => none

theorem searchLoop_matches (net : String → Except Err GistResp)
    (username : String) (pattern : Pat) (gists : List IterVal)
    (status : Status) (matched : List String) :
    (searchLoop net username pattern gists status matched).2 =
      matched ++ gists.filterMap (stepUrl net username pattern) := by
  induction gists generalizing status matched with
  | nil => simp [searchLoop]
  | cons gist rest ih =>
      simp only [searchLoop, List.filterMap_cons, stepUrl]
      cases hp : process_gist net username pattern gist with
      | ok o =>
          cases o with
          | some url => simp [ih]
          | none => simp [ih]
      | error e => simp [ih]

theorem searchLoop_status (net : String → Except Err GistResp)
    (username : String) (pattern : Pat) (gists : List IterVal)
    (status : Status) (matched : List String) :
    (searchLoop net username pattern gists status matched).1 = .fail ↔
      status = .fail ∨ ∃ gist ∈ gists, ∃ e, process_gist net username pattern gist = .error e := by
  induction gists generalizing status matched with
  | nil => simp [searchLoop]
  | cons gist rest ih =>
      simp only [searchLoop]
      cases hp : process_gist net username pattern gist with
      | ok o =>
          cases o with
          | some url =>
              rw [ih]
              simp [hp]
          | none =>
              rw [ih]
              simp [hp]
      | error e =>
          rw [ih]
          simp [hp]

/-- Unfolding of `search` when both body fields are present and the list
call succeeds. -/
theorem search_eq (net : Net) (u : String) (p : Pat) (L : Listing)
    (hL : net.userGists u = .ok L) :
    search net ⟨some u, some p⟩ =
      .ok { status := (searchLoop net.gistResp u p L.iter .success []).1,
            username := u, pattern := p,
            matched := L.iter.filterMap (stepUrl net.gistResp u p) } := by
  have hm := searchLoop_matches net.gistResp u p L.iter .success []
  simp only [List.nil_append] at hm
  simp only [search, getKey, Bind.bind, Except.bind, hL, pure, Except.pure]
  rw [hm]

/-- Inversion: an iteration appends `url` only for an array element whose
`'id'` is present, whose content fetch succeeds, whose regex test succeeds
with `True`, and `url` is the canonical URL built from that id. -/
theorem process_gist_some {net : String → Except Err GistResp} {u : String}
    {p : Pat} {v : IterVal} {url : String}
    (h : process_gist net u p v = .ok (some url)) :
    ∃ g id content, v = .item g ∧ g.id = some id ∧
      retrieve_content net id = .ok content ∧
      regex_match content p = .ok true ∧ url = return_url u id := by
  cases v with
  | key s => simp [process_gist] at h
  | item g =>
      cases hid : g.id with
      | none => simp [process_gist, hid, Bind.bind, Except.bind] at h
      | some id =>
          cases hc : retrieve_content net id with
          | error e => simp [process_gist, hid, hc, Bind.bind, Except.bind] at h
          | ok content =>
              cases hr : regex_match content p with
              | error e => simp [process_gist, hid, hc, hr, Bind.bind, Except.bind] at h
              | ok b =>
                  cases b with
                  | false =>
                      simp [process_gist, hid, hc, hr, Bind.bind, Except.bind, pure,
                        Except.pure] at h
                  | true =>
                      refine ⟨g, id, content, rfl, hid, hc, hr, ?_⟩
                      simp [process_gist, hid, hc, hr, Bind.bind, Except.bind, pure,
                        Except.pure] at h
                      exact h.symm

/-- An iteration whose id, fetch and regex test all succeed with a
non-match contributes nothing and raises nothing. -/
theorem process_gist_none {net : String → Except Err GistResp} {u : String}
    {p : Pat} {g : GistItem} {id content : String}
    (hid : g.id = some id) (hc : retrieve_content net id = .ok content)
    (hr : regex_match content p = .ok false) :
    process_gist net u p (.item g) = .ok none := by
  simp [process_gist, hid, hc, hr, Bind.bind, Except.bind, pure, Except.pure]

/-! ## Concrete oracles used as witnesses -/

/-- A pattern matching the literal string `hello`. -/
def patHello : Pat := .valid (litR "hello")

/-- Three gists `a`, `b`, `c`; fetching `b` raises a network error, the
others hold content beginning with `hello`. -/
def netA : Net where
  userGists := fun _ => .ok (.arr [{ id := some "a" }, { id := some "b" }, { id := some "c" }])
  gistResp := fun id =>
    if id = "b" then .error .network
    else .ok { files := [("file1.txt", { content := some ("hello " ++ id) })] }

/-- Every outbound call raises a network error. -/
def netFail : Net where
  userGists := fun _ => .error .network
  gistResp := fun _ => .error .network

/-- The list call returns an empty array. -/
def netEmpty : Net where
  userGists := fun _ => .ok (.arr [])
  gistResp := fun _ => .error .network

/-- The list call returns an empty JSON object. -/
def netObjEmpty : Net where
  userGists := fun _ => .ok (.obj [])
  gistResp := fun _ => .error .network

/-- The list call returns a GitHub-style error object. -/
def netObjMsg : Net where
  userGists := fun _ =>
    .ok (.obj [("message", "Not Found"), ("documentation_url", "https://docs.github.com")])
  gistResp := fun _ => .error .network

/-! ## Claims -/

/-- C2: `regex_match` returns `True` iff the compiled expression matches a
prefix of `content` starting at position 0 (Python `re.match` semantics),
not anywhere inside it; in particular content `"xhello"` with pattern
`"hello"` does not match. -/
theorem regex_match_is_anchored_at_start :
    (∀ (content : String) (r : Regex),
      regex_match content (Pat.valid r) = .ok true ↔
        ∃ p q, content.data = p ++ q ∧ Matches r p)
    ∧ regex_match "xhello" (Pat.valid (litR "hello")) = .ok false := by
  constructor
  · intro content r
    have h := pmatch_iff r content.data
    simp only [regex_match, re_compile, Bind.bind, Except.bind, pure, Except.pure,
      Except.ok.injEq]
    exact h
  · rfl

/-- C3: `retrieve_content` returns the `content` of the first entry of the
response's `files` mapping, and raises exactly when the network call
raises, the `files` mapping is empty, or the selected file object has no
`content` key. -/
theorem retrieve_content_first_file (net : String → Except Err GistResp)
    (gist_id : String) :
    (∀ s, retrieve_content net gist_id = .ok s ↔
      ∃ resp k f rest, net gist_id = .ok resp ∧ resp.files = (k, f) :: rest ∧
        f.content = some s)
    ∧ ((∃ e, retrieve_content net gist_id = .error e) ↔
        (∃ e, net gist_id = .error e)
        ∨ (∃ resp, net gist_id = .ok resp ∧ resp.files = [])
        ∨ (∃ resp k f rest, net gist_id = .ok resp ∧ resp.files = (k, f) :: rest ∧
            f.content = none)) := by
  cases hn : net gist_id with
  | error e =>
      simp [retrieve_content, hn, Bind.bind, Except.bind]
  | ok resp =>
      match hf : resp.files with
      | [] =>
          simp [retrieve_content, hn, hf, Bind.bind, Except.bind]
      | (k, f) :: rest =>
          cases hcon : f.content with
          | none =>
              have hrc : retrieve_content net gist_id = .error .keyError := by
                simp [retrieve_content, hn, hf, hcon, Bind.bind, Except.bind]
              constructor
              · intro s
                rw [hrc]
                constructor
                · intro h
                  cases h
                · rintro ⟨resp', k', f', rest', hn', hf', hc'⟩
                  cases hn'
                  rw [hf] at hf'
                  cases hf'
                  rw [hcon] at hc'
                  cases hc'
              · rw [hrc]
                constructor
                · intro _
                  exact Or.inr (Or.inr ⟨resp, k, f, rest, rfl, hf, hcon⟩)
                · intro _
                  exact ⟨.keyError, rfl⟩
          | some s0 =>
              have hrc : retrieve_content net gist_id = .ok s0 := by
                simp [retrieve_content, hn, hf, hcon, Bind.bind, Except.bind, pure,
                  Except.pure]
              constructor
              · intro s
                rw [hrc]
                constructor
                · intro hs
                  cases hs
                  exact ⟨resp, k, f, rest, rfl, hf, hcon⟩
                · rintro ⟨resp', k', f', rest', hn', hf', hc'⟩
                  cases hn'
                  rw [hf] at hf'
                  cases hf'
                  rw [hcon] at hc'
                  cases hc'
                  rfl
              · rw [hrc]
                constructor
                · rintro ⟨e, he⟩
                  cases he
                · rintro (⟨e, he⟩ | ⟨resp', hn', hf'⟩ | ⟨resp', k', f', rest', hn', hf', hc'⟩)
                  · cases he
                  · cases hn'
                    rw [hf] at hf'
                    cases hf'
                  · cases hn'
                    rw [hf] at hf'
                    cases hf'
                    rw [hcon] at hc'
                    cases hc'

/-- C4: if the initial list-gists call raises, the exception propagates out
of `search` uncaught (no `status: fail` response is produced) — asymmetric
with per-item failures, which are recovered inside the loop. -/
theorem search_list_error_propagates (net : Net) (u : String) (p : Pat) (e : Err)
    (h : net.userGists u = .error e) :
    search net ⟨some u, some p⟩ = .error e := by
  simp [search, getKey, Bind.bind, Except.bind, h]

theorem search_list_error_propagates_witness :
    netFail.userGists "octocat" = .error .network
    ∧ search netFail ⟨some "octocat", some patHello⟩ = .error .network :=
  ⟨rfl, search_list_error_propagates netFail "octocat" patHello .network rfl⟩

/-- C6: a POST body missing `username` or `pattern` makes `search` raise
(`KeyError`) before any gist processing occurs — the result is the same
exception whatever the network oracles do, and it is never a structured
`status: fail` JSON body. -/
theorem search_missing_field_fatal (post_data : PostData)
    (h : post_data.username = none ∨ post_data.pattern = none) (net : Net) :
    search net post_data = .error .keyError := by
  rcases h with h | h
  · simp [search, getKey, h, Bind.bind, Except.bind]
  · cases hu : post_data.username with
    | none => simp [search, getKey, hu, Bind.bind, Except.bind]
    | some u => simp [search, getKey, hu, h, Bind.bind, Except.bind]

theorem search_missing_field_fatal_witness :
    ((⟨none, some patHello⟩ : PostData).username = none
      ∨ (⟨none, some patHello⟩ : PostData).pattern = none)
    ∧ search netA ⟨none, some patHello⟩ = .error .keyError :=
  ⟨Or.inl rfl, search_missing_field_fatal ⟨none, some patHello⟩ (Or.inl rfl) netA⟩

theorem stepUrl_some {net : String → Except Err GistResp} {u : String} {p : Pat}
    {v : IterVal} {url : String} :
    stepUrl net u p v = some url ↔ process_gist net u p v = .ok (some url) := by
  cases hp : process_gist net u p v with
  | ok o => simp [stepUrl, hp]
  | error e => simp [stepUrl, hp]

/-- C1: a per-item exception flips `status` to `fail` but does not abort
the loop — gists before and after the failing one are still processed, and
their matches are kept alongside the `fail` status. -/
theorem search_continues_after_item_error (net : Net) (u : String) (p : Pat)
    (L : Listing) (pre post : List IterVal) (bad : IterVal) (e : Err)
    (hL : net.userGists u = .ok L)
    (hiter : L.iter = pre ++ bad :: post)
    (hbad : process_gist net.gistResp u p bad = .error e) :
    search net ⟨some u, some p⟩ =
      .ok { status := .fail, username := u, pattern := p,
            matched := pre.filterMap (stepUrl net.gistResp u p)
              ++ post.filterMap (stepUrl net.gistResp u p) } := by
  rw [search_eq net u p L hL]
  have hst : (searchLoop net.gistResp u p L.iter .success []).1 = .fail := by
    rw [searchLoop_status]
    exact Or.inr ⟨bad, by rw [hiter]; simp, e, hbad⟩
  have hfm : L.iter.filterMap (stepUrl net.gistResp u p) =
      pre.filterMap (stepUrl net.gistResp u p)
        ++ post.filterMap (stepUrl net.gistResp u p) := by
    rw [hiter]
    simp [List.filterMap_append, List.filterMap_cons, stepUrl, hbad]
  rw [hst, hfm]

theorem search_continues_after_item_error_witness :
    process_gist netA.gistResp "alice" patHello (.item { id := some "b" }) =
      .error .network
    ∧ search netA ⟨some "alice", some patHello⟩ =
        .ok { status := .fail, username := "alice", pattern := patHello,
              matched := [return_url "alice" "a", return_url "alice" "c"] } := by
  refine ⟨rfl, ?_⟩
  have h := search_continues_after_item_error netA "alice" patHello
    (.arr [{ id := some "a" }, { id := some "b" }, { id := some "c" }])
    [.item { id := some "a" }] [.item { id := some "c" }]
    (.item { id := some "b" }) .network rfl rfl rfl
  rw [h]
  rfl

/-- C5: `matched` preserves listing order — when gist `a` precedes gist `b`
in the iteration and both contribute a URL, `a`'s URL precedes `b`'s. -/
theorem matched_preserves_listing_order (net : Net) (u : String) (p : Pat)
    (L : Listing) (xs ys zs : List IterVal) (a b : IterVal) (ua ub : String)
    (res : SearchResult)
    (hL : net.userGists u = .ok L)
    (hiter : L.iter = xs ++ a :: (ys ++ b :: zs))
    (ha : stepUrl net.gistResp u p a = some ua)
    (hb : stepUrl net.gistResp u p b = some ub)
    (hres : search net ⟨some u, some p⟩ = .ok res) :
    ∃ m₁ m₂ m₃, res.matched = m₁ ++ ua :: (m₂ ++ ub :: m₃) := by
  rw [search_eq net u p L hL] at hres
  have hmatched : res.matched = L.iter.filterMap (stepUrl net.gistResp u p) := by
    injection hres with h
    rw [← h]
  refine ⟨xs.filterMap (stepUrl net.gistResp u p),
    ys.filterMap (stepUrl net.gistResp u p),
    zs.filterMap (stepUrl net.gistResp u p), ?_⟩
  rw [hmatched, hiter]
  simp [List.filterMap_append, List.filterMap_cons, ha, hb]

theorem matched_preserves_listing_order_witness :
    stepUrl netA.gistResp "alice" patHello (.item { id := some "a" }) =
      some (return_url "alice" "a")
    ∧ stepUrl netA.gistResp "alice" patHello (.item { id := some "c" }) =
        some (return_url "alice" "c")
    ∧ ∃ m₁ m₂ m₃,
        (SearchResult.mk .fail "alice" patHello
          [return_url "alice" "a", return_url "alice" "c"]).matched =
          m₁ ++ (return_url "alice" "a") :: (m₂ ++ (return_url "alice" "c") :: m₃) := by
  refine ⟨rfl, rfl, ?_⟩
  exact matched_preserves_listing_order netA "alice" patHello
    (.arr [{ id := some "a" }, { id := some "b" }, { id := some "c" }])
    [] [.item { id := some "b" }] [] (.item { id := some "a" })
    (.item { id := some "c" }) (return_url "alice" "a") (return_url "alice" "c")
    (SearchResult.mk .fail "alice" patHello
      [return_url "alice" "a", return_url "alice" "c"])
    rfl rfl rfl rfl rfl

/-- C7: when every iterated gist is an array element whose id is present,
whose content fetch succeeds and whose regex test returns `False` — in
particular when the listing is empty — the response is `status: success`
with `matches` empty. -/
theorem search_success_when_none_match (net : Net) (u : String) (p : Pat)
    (L : Listing)
    (hL : net.userGists u = .ok L)
    (hall : ∀ v ∈ L.iter, ∃ g id content, v = .item g ∧ g.id = some id ∧
        retrieve_content net.gistResp id = .ok content ∧
        regex_match content p = .ok false) :
    search net ⟨some u, some p⟩ =
      .ok { status := .success, username := u, pattern := p, matched := [] } := by
  rw [search_eq net u p L hL]
  have hnone : ∀ v ∈ L.iter, process_gist net.gistResp u p v = .ok none := by
    intro v hv
    obtain ⟨g, id, content, rfl, hid, hc, hr⟩ := hall v hv
    exact process_gist_none hid hc hr
  have hst : (searchLoop net.gistResp u p L.iter .success []).1 = .success := by
    cases hcase : (searchLoop net.gistResp u p L.iter .success []).1 with
    | success => rfl
    | fail =>
        exfalso
        rcases (searchLoop_status net.gistResp u p L.iter .success []).1 hcase with
          h | ⟨v, hv, e, he⟩
        · cases h
        · rw [hnone v hv] at he
          cases he
  have hfm : L.iter.filterMap (stepUrl net.gistResp u p) = [] := by
    rw [List.filterMap_eq_nil_iff]
    intro v hv
    simp [stepUrl, hnone v hv]
  rw [hst, hfm]

theorem search_success_when_none_match_witness :
    netEmpty.userGists "bob" = .ok (.arr [])
    ∧ search netEmpty ⟨some "bob", some patHello⟩ =
        .ok { status := .success, username := "bob", pattern := patHello,
              matched := [] } := by
  refine ⟨rfl, ?_⟩
  exact search_success_when_none_match netEmpty "bob" patHello (.arr []) rfl
    (by intro v hv; simp [Listing.iter] at hv)

/-- C8: the response echoes `username` and `pattern` unchanged, carries a
`status` that is `success` or `fail`, and every element of `matches` is the
canonical URL `https://gist.github.com/{username}/{id}` built from the
request's username and the id of a gist of the listing. -/
theorem search_result_shape (net : Net) (u : String) (p : Pat) (L : Listing)
    (res : SearchResult)
    (hL : net.userGists u = .ok L)
    (hres : search net ⟨some u, some p⟩ = .ok res) :
    res.username = u ∧ res.pattern = p
    ∧ (res.status = .success ∨ res.status = .fail)
    ∧ ∀ url ∈ res.matched, ∃ g id, IterVal.item g ∈ L.iter ∧ g.id = some id ∧
        url = "https://gist.github.com/" ++ u ++ "/" ++ id := by
  rw [search_eq net u p L hL] at hres
  injection hres with h
  refine ⟨by rw [← h], by rw [← h], ?_, ?_⟩
  · cases res.status with
    | success => exact Or.inl rfl
    | fail => exact Or.inr rfl
  · intro url hurl
    rw [← h] at hurl
    obtain ⟨v, hv, hstep⟩ := List.mem_filterMap.mp hurl
    obtain ⟨g, id, content, rfl, hid, _, _, hurl'⟩ :=
      process_gist_some (stepUrl_some.mp hstep)
    exact ⟨g, id, hv, hid, hurl'⟩

theorem search_result_shape_witness :
    search netA ⟨some "alice", some patHello⟩ =
      .ok { status := .fail, username := "alice", pattern := patHello,
            matched := [return_url "alice" "a", return_url "alice" "c"] }
    ∧ ((SearchResult.mk .fail "alice" patHello
          [return_url "alice" "a", return_url "alice" "c"]).username = "alice"
      ∧ (SearchResult.mk .fail "alice" patHello
          [return_url "alice" "a", return_url "alice" "c"]).pattern = patHello
      ∧ ((SearchResult.mk .fail "alice" patHello
            [return_url "alice" "a", return_url "alice" "c"]).status = .success
          ∨ (SearchResult.mk .fail "alice" patHello
              [return_url "alice" "a", return_url "alice" "c"]).status = .fail)
      ∧ ∀ url ∈ (SearchResult.mk .fail "alice" patHello
            [return_url "alice" "a", return_url "alice" "c"]).matched,
          ∃ g id, IterVal.item g ∈
              (Listing.arr [{ id := some "a" }, { id := some "b" },
                { id := some "c" }]).iter
            ∧ g.id = some id
            ∧ url = "https://gist.github.com/" ++ "alice" ++ "/" ++ id) := by
  refine ⟨rfl, ?_⟩
  exact search_result_shape netA "alice" patHello
    (.arr [{ id := some "a" }, { id := some "b" }, { id := some "c" }])
    (SearchResult.mk .fail "alice" patHello
      [return_url "alice" "a", return_url "alice" "c"]) rfl rfl

/-- C9: `matches` never outgrows the listing, and each of its elements is
the canonical URL of a listed gist whose whole per-item processing
succeeded with a match — failed or non-matching gists contribute nothing. -/
theorem matched_bounded_by_listing (net : Net) (u : String) (p : Pat)
    (L : Listing) (res : SearchResult)
    (hL : net.userGists u = .ok L)
    (hres : search net ⟨some u, some p⟩ = .ok res) :
    res.matched.length ≤ L.iter.length
    ∧ ∀ url ∈ res.matched, ∃ g id, IterVal.item g ∈ L.iter ∧ g.id = some id ∧
        url = return_url u id
        ∧ process_gist net.gistResp u p (.item g) = .ok (some url) := by
  rw [search_eq net u p L hL] at hres
  injection hres with h
  constructor
  · rw [← h]
    exact List.length_filterMap_le _ _
  · intro url hurl
    rw [← h] at hurl
    obtain ⟨v, hv, hstep⟩ := List.mem_filterMap.mp hurl
    have hproc := stepUrl_some.mp hstep
    obtain ⟨g, id, content, rfl, hid, _, _, hurl'⟩ := process_gist_some hproc
    exact ⟨g, id, hv, hid, hurl', hproc⟩

theorem matched_bounded_by_listing_witness :
    search netA ⟨some "alice", some patHello⟩ =
      .ok { status := .fail, username := "alice", pattern := patHello,
            matched := [return_url "alice" "a", return_url "alice" "c"] }
    ∧ ((SearchResult.mk .fail "alice" patHello
          [return_url "alice" "a", return_url "alice" "c"]).matched.length ≤
        (Listing.arr [{ id := some "a" }, { id := some "b" },
          { id := some "c" }]).iter.length
      ∧ ∀ url ∈ (SearchResult.mk .fail "alice" patHello
            [return_url "alice" "a", return_url "alice" "c"]).matched,
          ∃ g id, IterVal.item g ∈
              (Listing.arr [{ id := some "a" }, { id := some "b" },
                { id := some "c" }]).iter
            ∧ g.id = some id
            ∧ url = return_url "alice" id
            ∧ process_gist netA.gistResp "alice" patHello (.item g) =
                .ok (some url)) := by
  refine ⟨rfl, ?_⟩
  exact matched_bounded_by_listing netA "alice" patHello
    (.arr [{ id := some "a" }, { id := some "b" }, { id := some "c" }])
    (SearchResult.mk .fail "alice" patHello
      [return_url "alice" "a", return_url "alice" "c"]) rfl rfl

/-- C10 counterexample: the claim as stated fails for an empty JSON
object — the list call completes with `.obj []`, no error propagates, but
the response's status is `success`, not `fail`. -/
theorem search_obj_listing_counterexample :
    netObjEmpty.userGists "ghost" = .ok (.obj [])
    ∧ search netObjEmpty ⟨some "ghost", some patHello⟩ =
        .ok { status := .success, username := "ghost", pattern := patHello,
              matched := [] }
    ∧ Status.success ≠ Status.fail :=
  ⟨rfl, rfl, fun h => Status.noConfusion h⟩

/-- C10 (amended): when the list call returns a JSON object, no error
propagates out of `search`: iterating the object yields its keys, every
per-item step raises (`TypeError`) inside the try, and the response has
`matches` empty, with status `fail` when the object has at least one key
and `success` when it is empty. -/
theorem search_obj_listing (net : Net) (u : String) (p : Pat)
    (fields : List (String × String))
    (hL : net.userGists u = .ok (.obj fields)) :
    (∀ v ∈ (Listing.obj fields).iter,
      process_gist net.gistResp u p v = .error .typeError)
    ∧ search net ⟨some u, some p⟩ =
        .ok { status := if fields = [] then .success else .fail,
              username := u, pattern := p, matched := [] } := by
  have hkeys : ∀ v ∈ (Listing.obj fields).iter,
      process_gist net.gistResp u p v = .error .typeError := by
    intro v hv
    simp only [Listing.iter, List.mem_map] at hv
    obtain ⟨kv, _, rfl⟩ := hv
    rfl
  refine ⟨hkeys, ?_⟩
  rw [search_eq net u p (.obj fields) hL]
  have hfm : (Listing.obj fields).iter.filterMap (stepUrl net.gistResp u p) = [] := by
    rw [List.filterMap_eq_nil_iff]
    intro v hv
    simp [stepUrl, hkeys v hv]
  have hst : (searchLoop net.gistResp u p (Listing.obj fields).iter .success []).1 =
      if fields = [] then .success else .fail := by
    cases fields with
    | nil => simp [Listing.iter, searchLoop]
    | cons kv rest =>
        have hfail :
            (searchLoop net.gistResp u p (Listing.obj (kv :: rest)).iter .success []).1 =
              .fail := by
          rw [searchLoop_status]
          exact Or.inr ⟨.key kv.1, by simp [Listing.iter], .typeError,
            hkeys (.key kv.1) (by simp [Listing.iter])⟩
        simp [hfail]
  rw [hst, hfm]

theorem search_obj_listing_witness :
    netObjMsg.userGists "ghost" =
      .ok (.obj [("message", "Not Found"),
        ("documentation_url", "https://docs.github.com")])
    ∧ (∀ v ∈ (Listing.obj [("message", "Not Found"),
          ("documentation_url", "https://docs.github.com")]).iter,
        process_gist netObjMsg.gistResp "ghost" patHello v = .error .typeError)
    ∧ search netObjMsg ⟨some "ghost", some patHello⟩ =
        .ok { status := .fail, username := "ghost", pattern := patHello,
              matched := [] } := by
  have h := search_obj_listing netObjMsg "ghost" patHello
    [("message", "Not Found"), ("documentation_url", "https://docs.github.com")] rfl
  refine ⟨rfl, h.1, ?_⟩
  rw [h.2]
  rfl

end Gistapi
